import Mathlib

/-!
Shallow embedding of `src/null_terminated.rs` from the `nix-rust` repository.

A slotted buffer `[Option<T>]` is modelled as `List (Option α)`; `Present v`
is `some v` and `Empty` is `none`.  `NullTerminatedSlice<T>` is a transmuted
view of such a slice (same data), so views are modelled by the underlying
list itself; safe constructors return `Option (List (Option α))`.
-/

namespace NullTerminated

/-- Invariant I1: the last slot of the buffer is `Empty`. -/
def I1 {α : Type} (s : List (Option α)) : Prop :=
  s.getLast? = some none

/-- Invariant I2: no slot before the last is `Empty`. -/
def I2 {α : Type} (s : List (Option α)) : Prop :=
  ∀ o ∈ s.dropLast, o.isSome = true

instance {α : Type} [DecidableEq α] (s : List (Option α)) : Decidable (I1 s) := by
  unfold I1; infer_instance

instance {α : Type} (s : List (Option α)) : Decidable (I2 s) := by
  unfold I2; infer_instance

/-- `NullTerminatedSlice::from_slice`: returns the view iff the slice's last
element exists and is `None` (`slice.last().map(Option::is_none).unwrap_or(false)`). -/
def from_slice {α : Type} (s : List (Option α)) : Option (List (Option α)) :=
  if (s.getLast?.map Option.isNone).getD false then some s else none

/-- `Deref for NullTerminatedSlice`: the logical slice `&inner[..len - 1]`. -/
def deref {α : Type} (s : List (Option α)) : List (Option α) :=
  s.take (s.length - 1)

/-- `NullTerminatedIterator::next`, run to exhaustion over the iterator's
underlying slice: yields each value until the first `None` item (or the end
of the slice) is reached. -/
def iterNext {α : Type} : List (Option α) → List α
  | [] => []
  | none :: _ => []
  | some x :: rest => x :: iterNext rest

/-- `IntoIterator for &NullTerminatedSlice` followed by collecting the
iterator: `self.iter()` iterates the dereferenced logical slice. -/
def iterate {α : Type} (s : List (Option α)) : List α :=
  iterNext (deref s)

/-- `NullTerminatedArray::new`: wrap each source element in `Some` and chain
one trailing `None` (`iter.map(Some).chain(once(None)).collect`). -/
def new {α : Type} (l : List α) : List (Option α) :=
  l.map some ++ [none]

/-- `NullTerminatedArray::from_vec`: push a trailing `None` unless the vec's
last element already exists and is `None`. -/
def from_vec {α : Type} (v : List (Option α)) : List (Option α) :=
  if (v.getLast?.map Option.isNone).getD false then v else v ++ [none]

/-- A single write through `DerefMut for NullTerminatedSlice`: the exposed
mutable slice is `&mut inner[..len - 1]`, so a write lands at an index
strictly below `len - 1`; an index outside the exposed slice cannot be
written through it (in Rust such an access panics before any write), so the
buffer is left unchanged. -/
def set_via_deref_mut {α : Type} (s : List (Option α)) (i : Nat) (x : Option α) :
    List (Option α) :=
  if i < s.length - 1 then s.set i x else s

/-- A finite sequence of safe mutations through `DerefMut`. -/
def apply_muts {α : Type} (s : List (Option α)) (ops : List (Nat × Option α)) :
    List (Option α) :=
  ops.foldl (fun acc op => set_via_deref_mut acc op.1 op.2) s

/-- Spec-side characterisation used by §4.2/§8: the elements strictly before
the first `Empty` slot of a slotted sequence. -/
def elems_before_first_empty {α : Type} (v : List (Option α)) : List α :=
  (v.takeWhile Option.isSome).filterMap id

end NullTerminated

namespace NullTerminatedVecM

/-- `NullTerminatedVec<T, U>`: the owning boxed slice together with the
sentinel-terminated buffer of projected values. -/
structure NullTerminatedVec (α β : Type) where
  inner : List α
  null : List (Option β)

/-- `NullTerminatedVec::new`: box the vec, then build a
`NullTerminatedArray` from `f` applied to each element in order. -/
def NullTerminatedVec.new {α β : Type} (vec : List α) (f : α → β) :
    NullTerminatedVec α β :=
  { inner := vec
    null := NullTerminated.new (vec.map f) }

end NullTerminatedVecM

namespace NullTerminated

theorem deref_eq_dropLast {α : Type} (s : List (Option α)) : deref s = s.dropLast := by
  rw [deref, ← List.dropLast_eq_take]

theorem last_cond_iff {α : Type} (v : List (Option α)) :
    ((v.getLast?.map Option.isNone).getD false = true) ↔ v.getLast? = some none := by
  cases h : v.getLast? with
  | none => simp
  | some o => cases o <;> simp

theorem iterNext_map_some {α : Type} (l : List α) : iterNext (l.map some) = l := by
  induction l with
  | nil => rfl
  | cons x rest ih => simp [iterNext, ih]

theorem deref_new {α : Type} (l : List α) : deref (new l) = l.map some := by
  rw [deref_eq_dropLast, new, List.dropLast_concat]

theorem iterNext_eq_before_empty {α : Type} (l : List (Option α)) :
    iterNext l = elems_before_first_empty l := by
  induction l with
  | nil => rfl
  | cons o rest ih =>
    cases o with
    | none => simp [iterNext, elems_before_first_empty, List.takeWhile]
    | some x =>
      simp only [iterNext, ih, elems_before_first_empty, List.takeWhile]
      simp [List.filterMap]

theorem takeWhile_isSome_concat_none {α : Type} (w : List (Option α)) :
    (w ++ [none]).takeWhile Option.isSome = w.takeWhile Option.isSome := by
  induction w with
  | nil => simp [List.takeWhile]
  | cons o rest ih =>
    cases o with
    | none => simp [List.takeWhile]
    | some x => simp [List.takeWhile, ih]

theorem before_empty_concat_none {α : Type} (w : List (Option α)) :
    elems_before_first_empty (w ++ [none]) = elems_before_first_empty w := by
  rw [elems_before_first_empty, elems_before_first_empty, takeWhile_isSome_concat_none]

end NullTerminated

namespace NullTerminated

theorem from_vec_of_last_none {α : Type} (v : List (Option α))
    (h : v.getLast? = some none) : from_vec v = v := by
  rw [from_vec, if_pos]
  exact (last_cond_iff v).mpr h

theorem from_vec_of_last_not_none {α : Type} (v : List (Option α))
    (h : v.getLast? ≠ some none) : from_vec v = v ++ [none] := by
  rw [from_vec, if_neg]
  intro hc
  exact h ((last_cond_iff v).mp hc)

theorem from_vec_getLast? {α : Type} (v : List (Option α)) :
    (from_vec v).getLast? = some none := by
  by_cases h : v.getLast? = some none
  · rw [from_vec_of_last_none v h, h]
  · rw [from_vec_of_last_not_none v h, List.getLast?_concat]

theorem iterate_from_vec {α : Type} (v : List (Option α)) :
    iterate (from_vec v) = elems_before_first_empty v := by
  cases v using List.reverseRecOn with
  | nil =>
    rw [from_vec_of_last_not_none [] (by simp), iterate, deref_eq_dropLast]
    simp [iterNext, elems_before_first_empty]
  | append_singleton w a =>
    cases a with
    | none =>
      rw [from_vec_of_last_none _ (List.getLast?_concat w), iterate,
        deref_eq_dropLast, List.dropLast_concat, iterNext_eq_before_empty,
        before_empty_concat_none]
    | some x =>
      rw [from_vec_of_last_not_none _ (by rw [List.getLast?_concat]; simp),
        iterate, deref_eq_dropLast, List.dropLast_concat,
        iterNext_eq_before_empty]

theorem getLast?_set_via_deref_mut {α : Type} (s : List (Option α)) (i : Nat)
    (x : Option α) : (set_via_deref_mut s i x).getLast? = s.getLast? := by
  rw [set_via_deref_mut]
  split
  · case isTrue h =>
    rw [List.getLast?_eq_getElem?, List.getLast?_eq_getElem?, List.length_set,
      List.getElem?_set_ne]
    omega
  · rfl

theorem getLast?_apply_muts {α : Type} (ops : List (Nat × Option α)) :
    ∀ s : List (Option α), (apply_muts s ops).getLast? = s.getLast? := by
  induction ops with
  | nil => intro s; rfl
  | cons op rest ih =>
    intro s
    rw [apply_muts, List.foldl_cons, ← apply_muts, ih, getLast?_set_via_deref_mut]

end NullTerminated

namespace NullTerminated

/-- C1: `NullTerminatedArray::new S` produces a buffer of exactly `|S| + 1`
slots whose last slot is `Empty`, whose first `|S|` slots are `Present`
holding the elements of `S` in order, and whose logical slice (`Deref`,
excluding the sentinel) equals `S` in order and count. -/
theorem C1_new_sentinel_buffer {α : Type} (S : List α) :
    (new S).length = S.length + 1 ∧
    (new S).getLast? = some none ∧
    (new S).take S.length = S.map some ∧
    deref (new S) = S.map some ∧
    (deref (new S)).length = S.length := by
  refine ⟨by simp [new], ?_, ?_, deref_new S, by simp [deref_new S]⟩
  · rw [new, List.getLast?_concat]
  · rw [new, show S.length = (S.map some).length from (List.length_map S some).symm,
      List.take_left]

/-- C2: `from_slice` returns a view iff the slice's last slot exists and is
`Empty`; any returned view is the whole input slice (no partial object). -/
theorem C2_from_slice_iff {α : Type} (s : List (Option α)) :
    ((from_slice s).isSome = true ↔ s.getLast? = some none) ∧
    (∀ v, from_slice s = some v → v = s) := by
  constructor
  · rw [from_slice, ← last_cond_iff]
    by_cases h : (s.getLast?.map Option.isNone).getD false = true <;> simp [h]
  · intro v hv
    rw [from_slice] at hv
    split at hv
    · exact (Option.some.inj hv).symm
    · exact absurd hv (by simp)

/-- C2 witness: at the concrete slice `[Empty]`, `from_slice` accepts and
returns the slice itself. -/
theorem C2_from_slice_iff_witness :
    ([none] : List (Option Nat)) = [none] ∧
    (from_slice ([none] : List (Option Nat))).isSome = true :=
  ⟨(C2_from_slice_iff [none]).2 [none] (by decide),
   ((C2_from_slice_iff [none]).1).mpr (by decide)⟩

/-- C3: iterating the view produced by `new S` yields exactly the elements of
`S` in order, stopping at the sentinel; a second iteration from a fresh
borrow is the same function application on the same buffer, hence yields the
same sequence. -/
theorem C3_round_trip {α : Type} (S : List α) :
    iterate (new S) = S ∧ iterate (new S) = iterate (new S) := by
  refine ⟨?_, rfl⟩
  rw [iterate, deref_new S, iterNext_map_some]

/-- C4: `from_vec` on a vec whose last slot is already `Empty` uses it as-is
(no second sentinel, slot count and logical-slice length unchanged);
otherwise it appends exactly one `Empty` slot; in both cases the resulting
buffer's last slot is `Empty`. -/
theorem C4_from_vec_adoption {α : Type} (v : List (Option α)) :
    (v.getLast? = some none →
      from_vec v = v ∧ (from_vec v).length = v.length ∧
      (deref (from_vec v)).length = v.length - 1) ∧
    (v.getLast? ≠ some none → from_vec v = v ++ [none]) ∧
    (from_vec v).getLast? = some none := by
  refine ⟨?_, from_vec_of_last_not_none v, from_vec_getLast? v⟩
  intro h
  rw [from_vec_of_last_none v h]
  refine ⟨rfl, rfl, ?_⟩
  rw [deref]
  simp [List.length_take]

/-- C4 witness: adopting `[Present 1, Empty]` changes nothing; adopting
`[Present 1]` appends exactly one sentinel slot. -/
theorem C4_from_vec_adoption_witness :
    (from_vec ([some 1, none] : List (Option Nat)) = [some 1, none] ∧
      (from_vec ([some 1, none] : List (Option Nat))).length = 2 ∧
      (deref (from_vec ([some 1, none] : List (Option Nat)))).length = 1) ∧
    from_vec ([some 1] : List (Option Nat)) = [some 1] ++ [none] :=
  ⟨(C4_from_vec_adoption [some 1, none]).1 (by decide),
   (C4_from_vec_adoption [some 1]).2.1 (by decide)⟩

end NullTerminated

namespace NullTerminated

/-- C5 counterexample: the exposed constructor `from_vec` can produce a
buffer violating invariant I2: adopting `[Present 1, Empty, Present 2]`
yields a buffer whose interior slot 1 is `Empty`, so the buffer satisfies I1
but not I2, refuting the claim that no exposed operation can produce a
buffer violating I1/I2. -/
theorem C5_counterexample :
    I1 (from_vec ([some 1, none, some 2] : List (Option Nat))) ∧
    ¬ I2 (from_vec ([some 1, none, some 2] : List (Option Nat))) := by
  decide

/-- C5 amended: every exposed constructor establishes I1 unconditionally
(`from_vec` always, `new` always), `new` additionally establishes I2, and no
sequence of mutations through `DerefMut` can change the final slot; but
`from_vec` does not validate I2 and may leave a buffer with an interior
`Empty` slot. -/
theorem C5_amended_invariants {α : Type} (v : List (Option α)) (S : List α)
    (ops : List (Nat × Option α)) :
    I1 (from_vec v) ∧ I1 (new S) ∧ I2 (new S) ∧
    (apply_muts (from_vec v) ops).getLast? = some none := by
  refine ⟨from_vec_getLast? v, ?_, ?_, ?_⟩
  · rw [I1, new, List.getLast?_concat]
  · rw [I2, new, List.dropLast_concat]
    intro o ho
    obtain ⟨a, _, rfl⟩ := List.mem_map.mp ho
    rfl
  · rw [getLast?_apply_muts, from_vec_getLast? v]

/-- C6: reading through the view, a buffer adopted from a vec with an
interior `Empty` slot silently truncates: iteration yields exactly the
elements strictly before the first `Empty` slot, with no error; in
particular `from_vec [Present 1, Empty, Present 2]` iterates to `[1]`. -/
theorem C6_interior_empty_truncates :
    (∀ (α : Type) (v : List (Option α)),
      iterate (from_vec v) = elems_before_first_empty v) ∧
    iterate (from_vec ([some 1, none, some 2] : List (Option Nat))) = [1] := by
  refine ⟨fun α v => iterate_from_vec v, ?_⟩
  rw [iterate_from_vec]
  decide

/-- C7: `new` applied to the empty sequence produces the one-slot buffer
holding only the sentinel: its logical slice is empty and its iteration
yields no elements. -/
theorem C7_new_empty :
    new ([] : List Nat) = [none] ∧
    (new ([] : List Nat)).length = 1 ∧
    deref (new ([] : List Nat)) = [] ∧
    iterate (new ([] : List Nat)) = [] := by
  decide

end NullTerminated

namespace NullTerminated

/-- C8: `NullTerminatedVec::new vec f` produces a sentinel-terminated buffer
of `vec.length + 1` slots: logical length `vec.length`, slot `i` holding
`Present (f (vec i))` in the source order, followed by exactly one `Empty`
sentinel. -/
theorem C8_projection_order {α β : Type} (vec : List α) (f : α → β) :
    (NullTerminatedVecM.NullTerminatedVec.new vec f).null
      = (vec.map f).map some ++ [none] ∧
    (NullTerminatedVecM.NullTerminatedVec.new vec f).null.length
      = vec.length + 1 ∧
    deref (NullTerminatedVecM.NullTerminatedVec.new vec f).null
      = (vec.map f).map some ∧
    (deref (NullTerminatedVecM.NullTerminatedVec.new vec f).null).length
      = vec.length ∧
    (∀ i : Nat, (deref (NullTerminatedVecM.NullTerminatedVec.new vec f).null)[i]?
      = (vec[i]?.map f).map some) ∧
    (NullTerminatedVecM.NullTerminatedVec.new vec f).null.getLast?
      = some none := by
  have hnull : (NullTerminatedVecM.NullTerminatedVec.new vec f).null
      = new (vec.map f) := rfl
  refine ⟨?_, ?_, ?_, ?_, ?_, ?_⟩
  · rw [hnull, new]
  · rw [hnull, new]; simp
  · rw [hnull, deref_new]
  · rw [hnull, deref_new]; simp
  · intro i
    rw [hnull, deref_new]
    simp [List.getElem?_map]
  · rw [hnull, new, List.getLast?_concat]

/-- C9: on every slice accepted by `from_slice`, the logical slice accessor
is total and safe: the input has at least one slot (so `len - 1` does not
underflow), the view is the input itself, its logical slice has exactly
`len - 1` elements and is the input without the sentinel, and repeated
calls agree; the empty slice is rejected, so no safely constructed view has
zero slots. -/
theorem C9_deref_total_on_accepted {α : Type} :
    (∀ s v : List (Option α), from_slice s = some v →
      1 ≤ s.length ∧ v = s ∧ (deref v).length = s.length - 1 ∧
      deref v = s.dropLast ∧ deref v = deref v) ∧
    from_slice ([] : List (Option α)) = none := by
  constructor
  · intro s v hv
    rw [from_slice] at hv
    have hpair : v = s ∧ s.getLast? = some none := by
      split at hv
      · case isTrue h =>
        exact ⟨(Option.some.inj hv).symm, (last_cond_iff s).mp h⟩
      · exact absurd hv (by simp)
    obtain ⟨hvs, hlast⟩ := hpair
    have hne : s ≠ [] := by
      intro he
      rw [he] at hlast
      exact absurd hlast (by simp)
    have hlen : 1 ≤ s.length := by
      cases s with
      | nil => exact absurd rfl hne
      | cons a t => simp
    subst hvs
    refine ⟨hlen, rfl, ?_, deref_eq_dropLast v, rfl⟩
    rw [deref, List.length_take]
    omega
  · rfl

/-- C9 witness: the accepted two-slot slice `[Present 1, Empty]` has a total
logical slice of one element, and the empty slice is rejected. -/
theorem C9_deref_total_on_accepted_witness :
    (1 ≤ ([some 1, none] : List (Option Nat)).length ∧
      ([some 1, none] : List (Option Nat)) = [some 1, none] ∧
      (deref ([some 1, none] : List (Option Nat))).length
        = ([some 1, none] : List (Option Nat)).length - 1 ∧
      deref ([some 1, none] : List (Option Nat))
        = ([some 1, none] : List (Option Nat)).dropLast ∧
      deref ([some 1, none] : List (Option Nat))
        = deref ([some 1, none] : List (Option Nat))) ∧
    from_slice ([] : List (Option Nat)) = none :=
  ⟨(C9_deref_total_on_accepted).1 [some 1, none] [some 1, none] (by decide),
   (C9_deref_total_on_accepted).2⟩

/-- C10: every safe mutation goes through `DerefMut`, which exposes only the
first `len - 1` slots; any finite sequence of such writes leaves the final
slot unchanged, so invariant I1 holds after the sequence exactly when it
held before — in particular the sentinel can never be overwritten or
removed through safe mutation. -/
theorem C10_deref_mut_preserves_sentinel {α : Type} (s : List (Option α))
    (ops : List (Nat × Option α)) :
    (apply_muts s ops).getLast? = s.getLast? ∧
    (I1 (apply_muts s ops) ↔ I1 s) := by
  refine ⟨getLast?_apply_muts ops s, ?_⟩
  rw [I1, I1, getLast?_apply_muts ops s]

end NullTerminated
